import Mathlib

/-!
Shallow embedding of PDFKludge.py (PDFKludge v1.0), a PDF xref-table /
stream-object extractor, together with proofs about the claims of its
specification.  Python strings are modelled as `List Char`; `dict()` /
`OrderedDict()` objects as association lists preserving insertion order;
exceptions as an `Except` error side; and the two `while` loops of
`get_dict` that can fail to make progress are given an explicit fuel
parameter, `none` standing for divergence (a loop iteration that makes no
progress repeats forever in the source).

Each definition carries a comment naming the source lines it renders.
The regexes of the source are rendered operationally, following Python
`re` semantics (leftmost match, greedy / non-greedy backtracking order,
`.` not matching a newline unless `re.DOTALL` is set, `$` matching at the
end of the string or just before a final newline).

The `Warn(...)` calls of the source name no function defined in the
module; the specification lists the warning sink among the external
collaborators the module is used with, so `Warn` is modelled as a side
channel (a list of emitted warnings), not as an unbound name.  The
identifier `ifn` of line 208, by contrast, is an operand inside a
message format in a function whose parameter is `file_name`; no
collaborator provides it, so it is modelled as the `NameError` it
raises.
-/

namespace PDFKludge

/-- Python exceptions that the modelled code can raise.
`pdfError` is `PDFKludgeError(msg)` (PDFKludge.py line 38);
`nameError v` is a `NameError` on the unbound identifier `v`;
`typeError` is a `TypeError`; `ioError` is an `IOError`/`OSError`
raised by the file layer. -/
inductive PyErr where
  | pdfError (msg : String)
  | nameError (v : String)
  | typeError
  | ioError
deriving DecidableEq

/-- Values stored by `get_dict` (PDFKludge.py lines 79-95): a nested
dictionary, an integer (`int(value)` on an all-digit value), or opaque
text kept verbatim (arrays, hex strings, references, names...). -/
inductive PDFValue where
  | int (n : Int)
  | str (s : List Char)
  | dict (d : List (List Char × PDFValue))

/-- Non-fatal conditions sent to the warning sink (`Warn(...)` calls). -/
inductive PyWarn where
  | streamBoundary
  | objMismatch
  | dictItem
deriving DecidableEq

/-- White-space characters: source regex `WS = "(?:[\t ]|" + EOL + ")"`
with `EOL = "(?:\r\n?|(?<!\r)\n)"` (lines 29-31).  A run of characters
from this set is exactly what `WS*` can consume. -/
def isWS (c : Char) : Bool :=
  c = ' ' || c = '\t' || c = '\r' || c = '\n'

/-- Delimiter characters: source regex
`DLM = "(?:[<>\%[\]/]|" + WS + ")"` (line 32). -/
def isDelim (c : Char) : Bool :=
  c = '<' || c = '>' || c = '%' || c = '[' || c = ']' || c = '/' || isWS c

/-- Characters allowed in a name: the complemented class of
`NAME = "/([^<>\%[\]/ \t\r\n]*)(?=" + DLM + "|$)"` (line 33),
i.e. exactly the non-delimiter characters. -/
def isNameChar (c : Char) : Bool := !(isDelim c)

/-- Ordered-dictionary assignment `d[k] = v`: updates the binding in
place if the key exists (OrderedDict keeps its original position),
otherwise appends at the end. -/
def odSet {α : Type} : List (List Char × α) → List Char → α → List (List Char × α)
  | [], k, v => [(k, v)]
  | (k', v') :: t, k, v =>
      if k' = k then (k, v) :: t else (k', v') :: odSet t k v

/-- Ordered-dictionary deletion `del d[k]`: removes the first binding of
the key (a Python dict holds at most one). -/
def odDel {α : Type} : List (List Char × α) → List Char → List (List Char × α)
  | [], _ => []
  | (k', v) :: t, k => if k' = k then t else (k', v) :: odDel t k

/-- Ordered-dictionary lookup, also serving for `k in d`. -/
def odGet {α : Type} : List (List Char × α) → List Char → Option α
  | [], _ => none
  | (k', v) :: t, k => if k' = k then some v else odGet t k

/-- Association-list lookup for `Nat`-keyed Python dicts
(`self.xref`, `self.seekr`, and the table map of the document). -/
def natGet {α : Type} : List (Nat × α) → Nat → Option α
  | [], _ => none
  | (k', v) :: t, k => if k' = k then some v else natGet t k

/-- `Nat`-keyed dict assignment (used for `self.seekr[g] = ...`,
line 158, which overwrites an existing binding). -/
def natSet {α : Type} : List (Nat × α) → Nat → α → List (Nat × α)
  | [], k, v => [(k, v)]
  | (k', v') :: t, k, v =>
      if k' = k then (k, v) :: t else (k', v') :: natSet t k v

/-! ## The dictionary parser `get_dict` (lines 58-96)

The item regex of line 72 is
`WS* NAME WS* (..*?) WS* (?=/|>>|$)` (no `re.DOTALL`, so `.` does not
match `\n`).  Its backtracking order is deterministic and is rendered by
the search functions below:
* the first `WS*` must take the whole white-space run, since the
  following `/` of `NAME` is not a white-space character;
* the name group takes the maximal run of non-delimiter characters (any
  shorter run fails `NAME`'s look-ahead `(?=DLM|$)`, because the next
  character would be a non-delimiter);
* the `WS*` after the name is tried longest-first (greedy), the value
  `(..*?)` shortest-first (non-greedy, at least one character, none of
  them `\n`), the final `WS*` longest-first, and then the look-ahead
  `(?=/|>>|$)` must hold; `re.match` returns the first combination in
  this order. -/

/-- Position where the look-ahead `(?=/|>>|$)` of the item regex holds:
the next character is `/`, or the next two characters are `>>`, or the
Python `$` holds (end of string, or just before a final newline). -/
def itemStop (t : List Char) : Bool :=
  t.head? = some '/' || t.take 2 = ['>', '>'] || t = [] || t = ['\n']

/-- Greedy search for the final `WS*` of the item regex: try a
white-space prefix of length `j`, `j-1`, ..., `0` and return the
remainder at the first length where the look-ahead holds. -/
def tryWs3 : Nat → List Char → Option (List Char)
  | 0, t => if itemStop t then some t else none
  | j + 1, t =>
      if itemStop (t.drop (j + 1)) then some (t.drop (j + 1)) else tryWs3 j t

/-- Run the final `WS* (?=/|>>|$)` of the item regex at `t`: greedy on
the white-space run of `t`. -/
def ws3Find (t : List Char) : Option (List Char) :=
  tryWs3 (t.takeWhile isWS).length t

/-- Non-greedy extension of the value group `(..*?)`: `v` is the value
matched so far (at least one character); succeed as soon as
`WS* (?=/|>>|$)` matches after it, otherwise extend the value by one
more character (which `.` forbids to be a newline). -/
def valueSearch : List Char → List Char → Option (List Char × List Char)
  | v, rest =>
      match ws3Find rest with
      | some r => some (v, r)
      | none =>
          match rest with
          | [] => none
          | c :: t => if c = '\n' then none else valueSearch (v ++ [c]) t

/-- Start the value group `(..*?)` at `s`: it needs at least one
character, and `.` does not match `\n`. -/
def startValue : List Char → Option (List Char × List Char)
  | [] => none
  | c :: t => if c = '\n' then none else valueSearch [c] t

/-- Greedy search for the `WS*` between name and value: try a
white-space prefix of length `j`, `j-1`, ..., `0`, starting the value
group after it. -/
def tryWs2 : Nat → List Char → Option (List Char × List Char)
  | 0, s => startValue s
  | j + 1, s =>
      match startValue (s.drop (j + 1)) with
      | some r => some r
      | none => tryWs2 j s

/-- The item regex of line 72,
`re.match(WS + "*" + NAME + WS + "*(..*?)" + WS + "*(?=/|>>|$)", line[0])`:
returns the captured name (group 1), the captured value (group 2) and
`line[0][r.end():]`. -/
def matchItem (s : List Char) : Option (List Char × List Char × List Char) :=
  match s.dropWhile isWS with
  | '/' :: t =>
      let name := t.takeWhile isNameChar
      let s2 := t.dropWhile isNameChar
      match tryWs2 (s2.takeWhile isWS).length s2 with
      | some (v, rest) => some (name, v, rest)
      | none => none
  | _ => none

/-- Numeric value of an all-digit character list, as `int(value)`
(line 84) computes it. -/
def digitsToNat (l : List Char) : Nat :=
  l.foldl (fun a c => 10 * a + (c.toNat - 48)) 0

/-- The array-consuming loop of lines 88-91:
`while value.count("]") < value.count("["):` with body
`n = line[0].find("]") + 1; value += line[0][:n]; line[0] = line[0][n:]`.
When `line[0]` contains no `]`, `find` returns `-1`, so `n = 0` and the
body changes nothing: the loop repeats forever, which the fuel renders
as `none`. -/
def arrayLoop : Nat → List Char → List Char → Option (List Char × List Char)
  | 0, _, _ => none
  | fuel + 1, value, line =>
      if value.count ']' < value.count '[' then
        let n := match line.findIdx? (· = ']') with
          | some i => i + 1
          | none => 0
        arrayLoop fuel (value ++ line.take n) (line.drop n)
      else
        some (value, line)

/-- The main loop of `get_dict` (lines 67-96) on the shared cursor
`line[0]`.  Returns the accumulated ordered dictionary and the remaining
text; `none` is divergence (the array loop above can fail to progress).
* `while line[0]:` — an empty remainder ends the loop and returns `ret`;
* line 68: `re.match(WS + "*>>", line[0])` consumes the white-space run
  and a following `>>` and returns (the `>>` cannot sit earlier in the
  run, white-space characters not being `>`);
* line 72: the item regex; on failure `Warn("oops! expected dict item")`
  fires and the accumulated dictionary is returned (line 74-75);
* lines 79-95 classify the value: `"<<"` recurses on the shared cursor;
  an all-digit value (`re.match("\d+$", value)`; the value never
  contains `\n`, so `$` is plain end) becomes an integer; a value
  starting with `[` runs the array loop; anything else is kept as text. -/
def getDictGo : Nat → List (List Char × PDFValue) → List Char →
    Option (List (List Char × PDFValue) × List Char)
  | _, acc, [] => some (acc, [])
  | 0, _, _ => none
  | fuel + 1, acc, s =>
      let s1 := s.dropWhile isWS
      if s1.take 2 = ['>', '>'] then
        some (acc, s1.drop 2)
      else
        match matchItem s with
        | none => some (acc, s)
        | some (name, value, rest) =>
            if value = ['<', '<'] then
              match getDictGo fuel [] rest with
              | none => none
              | some (nested, rest') =>
                  getDictGo fuel (odSet acc name (.dict nested)) rest'
            else if value ≠ [] ∧ value.all Char.isDigit then
              getDictGo fuel (odSet acc name (.int (digitsToNat value))) rest
            else if value.head? = some '[' then
              match arrayLoop fuel value rest with
              | none => none
              | some (value', rest') =>
                  getDictGo fuel (odSet acc name (.str value')) rest'
            else
              getDictGo fuel (odSet acc name (.str value)) rest

/-- `PDFKludge.get_dict(line)` (lines 58-96) on a fresh string: the
result dictionary, or `none` on divergence or fuel exhaustion. -/
def get_dict (fuel : Nat) (s : List Char) : Option (List (List Char × PDFValue)) :=
  (getDictGo fuel [] s).map Prod.fst

/-! ## The dictionary serializer `dict_to_pdf` (lines 98-111) -/

/-- The decimal digit characters, indexed by value. -/
def digCh (d : Nat) : Char :=
  ['0', '1', '2', '3', '4', '5', '6', '7', '8', '9'].getD d '0'

/-- Decimal rendering of a natural number, most significant digit
first (fuelled so that it evaluates by kernel reduction; `n + 1` fuel
always suffices since the digit count is at most `n + 1`). -/
def natCharsGo : Nat → Nat → List Char
  | 0, _ => []
  | f + 1, n => if n < 10 then [digCh n] else natCharsGo f (n / 10) ++ [digCh (n % 10)]

/-- `str(n)` for a Python integer, as `"%s" % value` renders it
(line 109). -/
def pyIntStr (n : Int) : List Char :=
  if n < 0 then '-' :: natCharsGo (n.natAbs + 1) n.natAbs
  else natCharsGo (n.toNat + 1) n.toNat

/-- The loop body accumulation of `dict_to_pdf` (lines 103-110):
`ret += "/" + key` then `ret += " %s " % value`.  The nested-dictionary
branch calls `dict_to_pdf(value)` unqualified (line 107); inside the
class body no such name is bound at call time (the function is an
attribute of the class), so that branch raises `NameError`. -/
def dtpGo : List Char → List (List Char × PDFValue) → Except PyErr (List Char)
  | acc, [] => .ok (acc ++ ['>', '>'])
  | acc, (k, v) :: t =>
      match v with
      | .dict _ => .error (.nameError "dict_to_pdf")
      | .int n => dtpGo (acc ++ '/' :: k ++ ' ' :: pyIntStr n ++ [' ']) t
      | .str s => dtpGo (acc ++ '/' :: k ++ ' ' :: s ++ [' ']) t

/-- `PDFKludge.dict_to_pdf(d)` (lines 98-111): starts from `"<< "`,
appends `/key value ` per binding in insertion order, closes with
`>>`. -/
def dict_to_pdf (d : List (List Char × PDFValue)) : Except PyErr (List Char) :=
  dtpGo ['<', '<', ' '] d

/-! ## The xref chain loader `get_xref_table` (lines 131-195)

The file-reading and line-grammar part of the loader is abstracted: a
document is a finite map from seek offset to the tokenized xref table
found there.  An offset holding no well-formed table (`"xref"` line,
`<first> <count>` header, `count` entry lines matching
`(\d+) WS (\d{5}) WS ([fn]) WS? EOL $`, and a `trailer` dictionary,
lines 135-187) is absent from the map and makes the loader raise
`PDFKludgeError`, collapsing the four distinct fatal messages of lines
138-182 into one.  The trailer is carried as the ordered dictionary that
line 187 obtains from `get_dict` on the accumulated trailer text. -/

/-- One tokenized xref entry line (line 152): offset field (group 1),
five-digit generation (group 2), and the `f`/`n` flag rendered as
`in_use` (`True` for `n`, line 161). -/
structure XrefRow where
  off : Nat
  gen : Nat
  in_use : Bool

/-- One tokenized xref table: first object number (line 145), entry
rows in file order, and the parsed trailer dictionary (line 187). -/
structure XTable where
  start : Nat
  rows : List XrefRow
  trailer : List (List Char × PDFValue)

/-- A value of `self.xref[obj_n]` (lines 159-161): the dict
`{"seek": g, "gen": ..., "use": ...}`. -/
structure XrefEntry where
  seek : Nat
  gen : Nat
  use_flag : Bool
deriving DecidableEq

/-- The loader's mutable state: `self.xref`, `self.seekr`,
`self.trailer` (lines 53-56). -/
structure LoaderState where
  xref : List (Nat × XrefEntry)
  seekr : List (Nat × Nat)
  trailer : List (List Char × PDFValue)

/-- The fresh state built by `__init__` (lines 53-56). -/
def emptySt : LoaderState := ⟨[], [], []⟩

/-- The key `"Prev"`. -/
def prevKey : List Char := ['P', 'r', 'e', 'v']

/-- Processing of one entry line (lines 150-162): the entry and the
seek-point mapping are recorded only if the offset field is nonzero and
the object number has no binding yet (`if g != 0 and obj_n not in
self.xref`, line 157); `self.seekr[g]` is a plain dict assignment and
overwrites, `self.xref[obj_n]` binds a fresh key. -/
def recordRow (st : LoaderState) (objn : Nat) (r : XrefRow) : LoaderState :=
  if r.off ≠ 0 ∧ natGet st.xref objn = none then
    { st with
      xref := st.xref ++ [(objn, ⟨r.off, r.gen, r.in_use⟩)],
      seekr := natSet st.seekr r.off objn }
  else st

/-- The entry-line loop of lines 148-163: object numbers count up from
the table's first object number. -/
def recordRows : LoaderState → Nat → List XrefRow → LoaderState
  | st, _, [] => st
  | st, objn, r :: rs => recordRows (recordRow st objn r) (objn + 1) rs

/-- `PDFKludge.get_xref_table(seek_to)` (lines 131-195).  The current
table's entries are recorded first (lines 148-163); then, if the parsed
trailer holds a `Prev` key, the loader recurses on that offset (line
190) *before* deleting `Prev` from its own trailer (line 192) and
finally storing its own trailer (line 194) — so the assignment of every
recursive call is overwritten by its caller.  A non-integer `Prev`
value would be passed to `seek()` and raise `TypeError`.  `Prev` chains
can loop, hence the fuel; `none` is divergence. -/
def get_xref_table (doc : List (Nat × XTable)) :
    Nat → Nat → LoaderState → Option (Except PyErr LoaderState)
  | 0, _, _ => none
  | fuel + 1, seek_to, st =>
      match natGet doc seek_to with
      | none => some (.error (.pdfError "Cannot find xref table at 0x%x"))
      | some tab =>
          let st1 := recordRows st tab.start tab.rows
          match odGet tab.trailer prevKey with
          | none => some (.ok { st1 with trailer := tab.trailer })
          | some (.int p) =>
              match get_xref_table doc fuel p.toNat st1 with
              | none => none
              | some (.error e) => some (.error e)
              | some (.ok st2) =>
                  some (.ok { st2 with trailer := odDel tab.trailer prevKey })
          | some _ => some (.error .typeError)

/-- The chain of tables the recursion of `get_xref_table` visits from
an offset, newest first: the table at the offset, then the tables its
trailer's `Prev` links reach.  `none` when the chain is broken or does
not terminate within the fuel. -/
def chainOf (doc : List (Nat × XTable)) : Nat → Nat → Option (List XTable)
  | 0, _ => none
  | fuel + 1, off =>
      match natGet doc off with
      | none => none
      | some tab =>
          match odGet tab.trailer prevKey with
          | none => some [tab]
          | some (.int p) => (chainOf doc fuel p.toNat).map (tab :: ·)
          | some _ => none

/-- The entry a single table's rows hold for object number `n`, when
that row's offset field is nonzero: row number `n - start` counting
from the table's first object number. -/
def rowsHit : Nat → List XrefRow → Nat → Option XrefEntry
  | _, [], _ => none
  | objn, r :: rs, n =>
      if n = objn ∧ r.off ≠ 0 then some ⟨r.off, r.gen, r.in_use⟩
      else rowsHit (objn + 1) rs n

/-- The entry for object `n` from the first table of the chain (newest
first) that lists `n` with a nonzero offset field. -/
def firstHit : List XTable → Nat → Option XrefEntry
  | [], _ => none
  | t :: ts, n =>
      match rowsHit t.start t.rows n with
      | some e => some e
      | none => firstHit ts n

/-! ## `get_init_xref` (lines 113-129) -/

/-- The token `"startxref"`. -/
def sxref : List Char := ['s', 't', 'a', 'r', 't', 'x', 'r', 'e', 'f']

/-- Whether `"startxref"` occurs in `w` at index `i`. -/
def sxrefAt (w : List Char) (i : Nat) : Bool :=
  (w.drop i).take 9 = sxref

/-- `line.rfind("startxref")` (line 119): the highest index at which
the token occurs, scanning candidates from the end. -/
def rfindSxrefGo (w : List Char) : Nat → Option Nat
  | 0 => if sxrefAt w 0 then some 0 else none
  | i + 1 => if sxrefAt w (i + 1) then some (i + 1) else rfindSxrefGo w i

/-- `line.rfind("startxref")`, `-1` rendered as `none`. -/
def rfindSxref (w : List Char) : Option Nat :=
  rfindSxrefGo w w.length

/-- The remainders a single `WS` unit can leave, in the preference
order of the alternation `(?:[\t ]|\r\n?|(?<!\r)\n)`: `\r\n` is tried
with the optional `\n` first.  The `(?<!\r)\n` look-behind is satisfied
at both uses below — the match starts at the beginning of a fresh
string or right after a digit, never after `\r`. -/
def wsUnitSplits : List Char → List (List Char)
  | '\t' :: t => [t]
  | ' ' :: t => [t]
  | '\r' :: '\n' :: t => [t, '\n' :: t]
  | '\r' :: t => [t]
  | '\n' :: t => [t]
  | _ => []

/-- `re.match(WS + "(\d+)" + WS, line, re.DOTALL)` followed by
`int(r.group(1))` (lines 125-129): one white-space unit, a maximal
nonempty digit run (any shorter run leaves a digit where the trailing
`WS` must match, so greediness is forced), one more white-space
unit. -/
def matchStartxrefNum (tail : List Char) : Option Nat :=
  (wsUnitSplits tail).findSome? fun t1 =>
    let ds := t1.takeWhile Char.isDigit
    if ds = [] then none
    else if wsUnitSplits (t1.drop ds.length) = [] then none
    else some (digitsToNat ds)

/-- `PDFKludge.get_init_xref` (lines 113-129) up to the point where it
hands the parsed offset to `get_xref_table`; the file is its content.
`self.infile.seek(-1024, os.SEEK_END)` (line 116) is a relative seek
with no clamping: on a file shorter than 1024 bytes the resulting
position is negative and the seek raises `IOError` (EINVAL).
Otherwise `read(1024)` yields exactly the last 1024 bytes. -/
def get_init_xref (content : List Char) : Except PyErr Nat :=
  if content.length < 1024 then .error .ioError
  else
    let window := content.drop (content.length - 1024)
    match rfindSxref window with
    | none => .error (.pdfError "Cannot find startxref after 0x%x")
    | some r =>
        match matchStartxrefNum (window.drop (r + 9)) with
        | some n => .ok n
        | none => .error (.pdfError "Bad startxref at 0x%x")

/-! ## `open_pdf` (lines 197-209) -/

/-- `re.match("%PDF-(...)" + EOL, head)` (line 206): the literal
signature, three version characters (`.` without `re.DOTALL`, so none
of them `\n`), then an end of line.  The `(?<!\r)\n` branch of `EOL`
only applies when the third version character is not `\r`. -/
def pdfHeaderOk : List Char → Bool
  | '%' :: 'P' :: 'D' :: 'F' :: '-' :: v1 :: v2 :: v3 :: rest =>
      v1 != '\n' && v2 != '\n' && v3 != '\n' &&
      (match rest with
       | '\r' :: _ => true
       | '\n' :: _ => v3 != '\r'
       | _ => false)
  | _ => false

/-- `PDFKludge.open_pdf(file_name)` (lines 197-209), the file given by
its content: `head = self.infile.read(10)` and the signature match.  On
a failed match, line 208 executes
`raise PDFKludgeError("..." % ifn)`; the identifier `ifn` is bound
nowhere (the parameter is named `file_name`), so evaluating the message
raises `NameError` before any `PDFKludgeError` exists. -/
def open_pdf (content : List Char) : Except PyErr Unit :=
  if pdfHeaderOk (content.take 10) then .ok () else .error (.nameError "ifn")

/-! ## The stream extractor `get_stream_obj_at` (lines 211-289)

The claims under verification concern two phases modelled here: the
precondition checks on the seek points (lines 229-240) and the payload
length resolution after the object-header match (lines 276-283).  The
latter takes the matched buffer `data`, the parsed object dictionary
`meta = get_dict(r.group(4))`, and `r.end()`, the index just past the
header match. -/

/-- The key `"Length"`. -/
def lengthKey : List Char := ['L', 'e', 'n', 'g', 't', 'h']

/-- Normalization of one Python slice index against a length: negative
indices count from the end (clamped at 0), others are clamped at the
length. -/
def pyNormIdx (len : Nat) (i : Int) : Nat :=
  if i < 0 then (len + i).toNat else min i.toNat len

/-- `s[a:b]` for Python integer slice bounds. -/
def pySlice (s : List Char) (a b : Int) : List Char :=
  (s.drop (pyNormIdx s.length a)).take (pyNormIdx s.length b - pyNormIdx s.length a)

/-- The remainders one `EOL` can leave, in preference order; as in
`wsUnitSplits`, the `(?<!\r)\n` look-behind is satisfied at both uses
in the terminator pattern (the preceding character is `m` or `j`). -/
def eolSplits : List Char → List (List Char)
  | '\r' :: '\n' :: t => [t, '\n' :: t]
  | '\r' :: t => [t]
  | '\n' :: t => [t]
  | _ => []

/-- The token `"endstream"`. -/
def endstreamChars : List Char := ['e', 'n', 'd', 's', 't', 'r', 'e', 'a', 'm']

/-- The token `"endobj"`. -/
def endobjChars : List Char := ['e', 'n', 'd', 'o', 'b', 'j']

/-- Whether `endstream EOL endobj EOL` matches at the head of `l`. -/
def isTermAt (l : List Char) : Bool :=
  l.take 9 = endstreamChars &&
  (eolSplits (l.drop 9)).any fun l2 =>
    l2.take 6 = endobjChars && !(eolSplits (l2.drop 6)).isEmpty

/-- The greedy `(.*)` of
`re.match("(.*)endstream" + EOL + "endobj" + EOL, data, re.DOTALL)`
(line 279) backtracks from the longest prefix, so the group-1 boundary
is the *last* index where the terminator matches. -/
def findLastTermGo (d : List Char) : Nat → Option Nat
  | 0 => if isTermAt d then some 0 else none
  | i + 1 => if isTermAt (d.drop (i + 1)) then some (i + 1) else findLastTermGo d i

/-- The last index of `data` where `endstream EOL endobj EOL` matches,
`none` when the regex of line 279 fails. -/
def findLastTerm (d : List Char) : Option Nat :=
  findLastTermGo d d.length

/-- The payload-length resolution of lines 276-283, given the parsed
object dictionary `meta`, the read buffer `data` and `e = r.end()`.
`if "Length" in meta:` tests mere presence; the slice bound
`r.end() + meta["Length"]` (line 277) is only defined when the value is
an integer — on the opaque-text values `get_dict` stores for indirect
references (and on nested dictionaries) the addition raises
`TypeError`.  With no `Length` key, line 279 matches the terminator
against the *whole* buffer: on success `data` becomes group 1 (the
prefix before the last terminator, object header included) with no
warning; on failure the full buffer is kept and the stream-boundary
warning fires (line 283). -/
def resolvePayload (meta : List (List Char × PDFValue)) (data : List Char) (e : Nat) :
    Except PyErr (List Char × List PyWarn) :=
  match odGet meta lengthKey with
  | some (.int L) => .ok (pySlice data (e : Int) ((e : Int) + L), [])
  | some _ => .error .typeError
  | none =>
      match findLastTerm data with
      | some i => .ok (data.take i, [])
      | none => .ok (data, [.streamBoundary])

/-- Insertion into a sorted list (ascending). -/
def insertSorted (x : Nat) : List Nat → List Nat
  | [] => [x]
  | y :: t => if x ≤ y then x :: y :: t else y :: insertSorted x t

/-- `sorted(...)` on a list of keys (insertion sort; the keys of a dict
are distinct, so stability is moot). -/
def sortKeys : List Nat → List Nat
  | [] => []
  | x :: t => insertSorted x (sortKeys t)

/-- `keys.index(x)`: index of the first occurrence. -/
def idxOfNat (x : Nat) : List Nat → Nat
  | [] => 0
  | y :: t => if y = x then 0 else idxOfNat x t + 1

/-- Message of line 230. -/
def lookupMsg : String := "asked for object at invalid seek point 0x%x"

/-- Message of line 240. -/
def rangeMsg : String := "asked for object at invalid range: 0x%x to 0x%x"

/-- The precondition phase of `get_stream_obj_at` (lines 229-240),
ending where the function starts reading bytes (line 242): the
membership test on the seek index comes first and raises on failure;
with `to_pt` absent, the next greater sorted key (if any) replaces it;
an explicit `to_pt <= from_pt` raises.  Returns the resolved `to_pt`. -/
def gsoPre (seekr : List (Nat × Nat)) (from_pt : Nat) (to_pt : Option Nat) :
    Except PyErr (Option Nat) :=
  if natGet seekr from_pt = none then .error (.pdfError lookupMsg)
  else
    match to_pt with
    | none =>
        let keys := sortKeys (seekr.map Prod.fst)
        let k := idxOfNat from_pt keys + 1
        if h : k < keys.length then .ok (some keys[k]) else .ok none
    | some t =>
        if t ≤ from_pt then .error (.pdfError rangeMsg) else .ok (some t)

/-! ## Well-formedness conditions for the parse/serialize round trip -/

/-- A key that survives the round trip: every character is outside the
delimiter class, so the name regex captures it whole. -/
def goodKey (k : List Char) : Bool :=
  k.all fun c => !(isDelim c)

/-- A flat value that survives the round trip: a nonnegative integer
(rendered as a digit run, re-parsed by the `\d+$` branch), or a
nonempty opaque string free of delimiter characters that is not itself
all digits (so the parser keeps it verbatim as text). -/
def flatGoodVal : PDFValue → Bool
  | .int n => decide (0 ≤ n)
  | .str s => !s.isEmpty && (s.all fun c => !(isDelim c)) && !(s.all Char.isDigit)
  | .dict _ => false

/-- Rendering of a flat value by `"%s" % value` (line 109). -/
def pyFmt : PDFValue → List Char
  | .int n => pyIntStr n
  | .str s => s
  | .dict _ => []

/-- The item part of `dict_to_pdf`'s output (everything between the
`"<< "` prefix and the `">>"` suffix) for a flat mapping. -/
def flatBody : List (List Char × PDFValue) → List Char
  | [] => []
  | (k, v) :: t => '/' :: k ++ ' ' :: pyFmt v ++ ' ' :: flatBody t

/-! ## Concrete documents and buffers used by witnesses and
counterexamples, and derived notions the theorems are stated with -/

/-- The entry-recording effect of processing a list of tables in
order, ignoring trailers: what the chained recursion does to
`self.xref` and `self.seekr`. -/
def loadTabs : LoaderState → List XTable → LoaderState
  | st, [] => st
  | st, t :: ts => loadTabs (recordRows st t.start t.rows) ts

/-- The invariant tying the seek index to the object index: every
recorded seek point maps to an object whose entry carries that seek
point. -/
def seekrInv (st : LoaderState) : Prop :=
  ∀ g n, natGet st.seekr g = some n →
    ∃ e, natGet st.xref n = some e ∧ e.seek = g

/-- A character the value group can walk over without the trailing
`WS* (?=/|>>|$)` firing early: not white space, not `/`, not `>`. -/
def valueChar (c : Char) : Bool :=
  !(isWS c) && c != '/' && c != '>'

/-- The key `"Root"`. -/
def rootKey : List Char := ['R', 'o', 'o', 't']

/-- A newest-revision table at offset 10 whose trailer links to offset
20 and carries `Root 1`. -/
def tabNewer : XTable := ⟨0, [], [(rootKey, .int 1), (prevKey, .int 20)]⟩

/-- The oldest table at offset 20 carrying `Root 2` and no `Prev`. -/
def tabOlder : XTable := ⟨0, [], [(rootKey, .int 2)]⟩

/-- A two-table document: table at 10 chains to table at 20. -/
def docTwo : List (Nat × XTable) := [(10, tabNewer), (20, tabOlder)]

/-- The buffer of the C3 example: a full stream object with no
`Length`, terminator present. -/
def c3buf : List Char := "5 0 obj<</A 1>>stream\nXY\nendstream\nendobj\n".toList

/-- A newest table at offset 10: object 5 at offset 100, `Prev` to 20. -/
def tabRowsNewer : XTable := ⟨5, [⟨100, 0, true⟩], [(prevKey, .int 20)]⟩

/-- An older table at offset 20: object 5 again, at offset 50. -/
def tabRowsOlder : XTable := ⟨5, [⟨50, 0, true⟩], []⟩

/-- The two-revision document of the shadowing example. -/
def docRows : List (Nat × XTable) := [(10, tabRowsNewer), (20, tabRowsOlder)]

/-- The concrete mapping of the round-trip witness. -/
def c2map : List (List Char × PDFValue) :=
  [("Type".toList, .str ("Catalog".toList)), ("Size".toList, .int 3)]

end PDFKludge

namespace PDFKludge

/-! # Helper lemmas -/

theorem natGet_append (l : List (Nat × XrefEntry)) (k : Nat) (e : XrefEntry) (n : Nat) :
    natGet (l ++ [(k, e)]) n =
      match natGet l n with
      | some w => some w
      | none => if n = k then some e else none := by
  induction l with
  | nil =>
      by_cases h : n = k
      · subst h; simp [natGet]
      · simp [natGet, h, Ne.symm h]
  | cons hd tl ih =>
      obtain ⟨k', v'⟩ := hd
      by_cases h : k' = n <;> simp [natGet, h, ih]

theorem natSet_get (l : List (Nat × Nat)) (k v g : Nat) :
    natGet (natSet l k v) g = if g = k then some v else natGet l g := by
  induction l with
  | nil =>
      by_cases h : g = k
      · subst h; simp [natSet, natGet]
      · simp [natSet, natGet, h, Ne.symm h]
  | cons hd tl ih =>
      obtain ⟨k', v'⟩ := hd
      simp only [natSet]
      by_cases hk : k' = k
      · subst hk
        simp only [if_pos rfl, natGet]
        by_cases hg : g = k'
        · simp [hg]
        · simp [hg, Ne.symm hg]
      · simp only [if_neg hk, natGet]
        by_cases hg : k' = g
        · subst hg
          have hgk : ¬(k' = k) := hk
          simp [hgk]
        · simp only [if_neg hg]
          exact ih

theorem odDel_of_not_mem {α : Type} (d : List (List Char × α)) (k : List Char)
    (h : odGet d k = none) : odDel d k = d := by
  induction d with
  | nil => rfl
  | cons hd tl ih =>
      obtain ⟨k', v⟩ := hd
      by_cases hk : k' = k
      · simp [odGet, hk] at h
      · simp [odGet, hk] at h
        simp [odDel, hk, ih h]

theorem odGet_append {α : Type} (l : List (List Char × α)) (k : List Char) (v : α)
    (n : List Char) :
    odGet (l ++ [(k, v)]) n =
      match odGet l n with
      | some w => some w
      | none => if n = k then some v else none := by
  induction l with
  | nil =>
      by_cases h : n = k
      · subst h; simp [odGet]
      · simp [odGet, h, Ne.symm h]
  | cons hd tl ih =>
      obtain ⟨k', v'⟩ := hd
      by_cases h : k' = n <;> simp [odGet, h, ih]

theorem odSet_of_not_mem {α : Type} (d : List (List Char × α)) (k : List Char) (v : α)
    (h : odGet d k = none) : odSet d k v = d ++ [(k, v)] := by
  induction d with
  | nil => rfl
  | cons hd tl ih =>
      obtain ⟨k', v'⟩ := hd
      by_cases hk : k' = k
      · simp [odGet, hk] at h
      · simp [odGet, hk] at h
        simp [odSet, hk, ih h]

/-! ## C4: `open_pdf` raises `NameError`, not `PDFKludgeError` -/

/-- C4.  The claim says a non-PDF file makes `open_pdf` fail with a
`PDFKludgeError` carrying "not a PDF file".  The code is a slip: the
message of line 208 interpolates the unbound identifier `ifn` (the
parameter is `file_name`), so the failure path raises `NameError`
instead — here evaluated on a file whose first bytes are
`hello worl`. -/
theorem open_pdf_raises_name_error :
    open_pdf ("hello world, not a pdf".toList) = .error (.nameError "ifn") := rfl

/-! ## C9: the array loop of `get_dict` diverges -/

theorem arrayLoop_stuck (f : Nat) :
    arrayLoop f ['[', '1', ' ', '2'] [] = none := by
  induction f with
  | zero => rfl
  | succ f ih => simpa [arrayLoop] using ih

theorem getDictGo_step_to_arrayLoop (f : Nat) :
    getDictGo (f + 1) [] ['/', 'A', ' ', '[', '1', ' ', '2'] =
      match arrayLoop f ['[', '1', ' ', '2'] [] with
      | none => none
      | some (v', r') => getDictGo f (odSet [] ['A'] (.str v')) r' := rfl

/-- C9.  The claim says `get_dict` terminates on every finite input,
in particular that the array-consuming loop terminates when no `]`
remains.  The code is a slip: on `"/A [1 2"` the item regex captures
the value `[1 2` with an empty remainder, and the loop of lines 88-91
computes `n = line[0].find("]") + 1 = 0`, appending nothing and
dropping nothing — the state never changes, so no amount of fuel
reaches a result. -/
theorem get_dict_array_loop_diverges (fuel : Nat) :
    get_dict fuel ("/A [1 2".toList) = none := by
  have hs : "/A [1 2".toList = ['/', 'A', ' ', '[', '1', ' ', '2'] := rfl
  unfold get_dict
  rw [hs]
  cases fuel with
  | zero => rfl
  | succ f => rw [getDictGo_step_to_arrayLoop, arrayLoop_stuck]; rfl

/-! ## C2 (counterexample): the literal composition keeps the `<< >>`
markers that `get_dict` expects to be stripped -/

/-- C2 counterexample.  `dict_to_pdf` wraps its output in `<< ... >>`,
but `get_dict` is documented (and coded) to take the *inner* text: fed
the full serializer output for the one-entry mapping `A ↦ "B"`, the
item regex fails at the leading `<` and the parser returns the empty
mapping, not the original one. -/
theorem get_dict_of_dict_to_pdf_empty :
    dict_to_pdf [(['A'], .str ['B'])] = .ok ("<< /A B >>".toList) ∧
    get_dict 20 ("<< /A B >>".toList) = some [] ∧
    (some [] : Option (List (List Char × PDFValue))) ≠
      some [(['A'], .str ['B'])] := by
  refine ⟨rfl, rfl, ?_⟩
  simp

/-! ## C7: a non-integer `Length` raises `TypeError` -/

theorem resolvePayload_length_cases (meta : List (List Char × PDFValue))
    (data : List Char) (e : Nat) (v : PDFValue) (h : odGet meta lengthKey = some v) :
    resolvePayload meta data e =
      match v with
      | .int L => .ok (pySlice data (e : Int) ((e : Int) + L), [])
      | _ => .error .typeError := by
  cases v with
  | int L => simp [resolvePayload, h]
  | str s => simp [resolvePayload, h]
  | dict d => simp [resolvePayload, h]

/-- C7 amended.  The source tests only `"Length" in meta` (line 276):
with an integer value the exact slice is taken, but with any other
value (the opaque text an indirect reference parses to, or a nested
dictionary) the bound `r.end() + meta["Length"]` raises `TypeError` —
the call crashes instead of falling through to the `endstream` scan,
which runs only when the key is absent. -/
theorem resolve_length_branch (meta : List (List Char × PDFValue)) (data : List Char)
    (e : Nat) (v : PDFValue) (h : odGet meta lengthKey = some v) :
    resolvePayload meta data e =
      match v with
      | .int L => .ok (pySlice data (e : Int) ((e : Int) + L), [])
      | _ => .error .typeError :=
  resolvePayload_length_cases meta data e v h

/-- Witness for `resolve_length_branch`: an integer `Length 4` on a
buffer with six payload bytes slices exactly four. -/
theorem resolve_length_branch_witness :
    resolvePayload [(lengthKey, .int 4)] ("ABCDEF".toList) 0 =
      .ok ("ABCD".toList, []) :=
  resolve_length_branch [(lengthKey, .int 4)] ("ABCDEF".toList) 0 (.int 4) rfl

/-- C7 counterexample.  With `Length` bound to the opaque text
`12 0 R`, the claim says the call falls through to the fallback scan;
the code raises `TypeError`, although the terminator the fallback
would use is present in the buffer. -/
theorem resolve_length_str_type_error :
    resolvePayload [(lengthKey, .str ("12 0 R".toList))]
        ("stream\nAB\nendstream\nendobj\n".toList) 7 = .error .typeError ∧
    findLastTerm ("stream\nAB\nendstream\nendobj\n".toList) = some 10 := by
  exact ⟨rfl, rfl⟩

/-! ## C10: a truncated buffer under an integer `Length` -/

theorem pySlice_truncated (data : List Char) (e : Nat) (L : Int) (hL : 0 ≤ L)
    (h : (data.length : Int) - e < L) :
    pySlice data (e : Int) ((e : Int) + L) = data.drop e := by
  unfold pySlice pyNormIdx
  have he : ¬((e : Int) < 0) := by omega
  have heL : ¬((e : Int) + L < 0) := by omega
  have htoNat : ((e : Int) + L).toNat = e + L.toNat := by omega
  have hge : data.length ≤ e + L.toNat := by omega
  simp only [if_neg he, if_neg heL, Int.toNat_natCast, htoNat]
  rcases Nat.le_total e data.length with hcase | hcase
  · have h1 : min e data.length = e := Nat.min_eq_left hcase
    have h2 : min (e + L.toNat) data.length = data.length := Nat.min_eq_right hge
    rw [h1, h2]
    apply List.take_of_length_le
    simp
  · have h1 : min e data.length = data.length := Nat.min_eq_right hcase
    have h2 : min (e + L.toNat) data.length = data.length := Nat.min_eq_right hge
    rw [h1, h2, Nat.sub_self, List.take_zero]
    exact (List.drop_eq_nil_of_le hcase).symm

/-- C10.  When the parsed dictionary holds an integer `Length L` but
fewer than `L` bytes follow the header match in the buffer, the Python
slice of line 277 silently clamps: the call returns the available
truncated bytes, raising nothing and emitting no warning. -/
theorem truncated_length_returns_available (meta : List (List Char × PDFValue))
    (data : List Char) (e : Nat) (L : Int)
    (h : odGet meta lengthKey = some (.int L)) (hL : 0 ≤ L)
    (hshort : (data.length : Int) - e < L) :
    resolvePayload meta data e = .ok (data.drop e, []) := by
  rw [resolvePayload_length_cases meta data e (.int L) h]
  show Except.ok (pySlice data (e : Int) ((e : Int) + L), []) = _
  rw [pySlice_truncated data e L hL hshort]

/-- Witness for `truncated_length_returns_available`: `Length 9` over
a buffer holding only two bytes past the header end. -/
theorem truncated_length_returns_available_witness :
    resolvePayload [(lengthKey, .int 9)] ("ABC".toList) 1 = .ok ("BC".toList, []) :=
  truncated_length_returns_available [(lengthKey, .int 9)] ("ABC".toList) 1 9 rfl
    (by decide) (by decide)

/-! ## C8: precondition checks of `get_stream_obj_at` -/

/-- C8.  `get_stream_obj_at` fails with the seek-point `LookupError`
message exactly when `from_pt` is no key of the seek index; when it is
a key and `to_pt` was passed explicitly, it fails with the range
message exactly when `to_pt <= from_pt`; the membership test comes
first (a bad range under a bad seek point still reports the seek
point), and when neither condition holds the precondition phase
returns normally, reading bytes next. -/
theorem gsoPre_precondition_spec (seekr : List (Nat × Nat)) (from_pt : Nat)
    (to_pt : Option Nat) :
    (gsoPre seekr from_pt to_pt = .error (.pdfError lookupMsg) ↔
      natGet seekr from_pt = none) ∧
    (∀ t, to_pt = some t →
      (gsoPre seekr from_pt to_pt = .error (.pdfError rangeMsg) ↔
        (natGet seekr from_pt ≠ none ∧ t ≤ from_pt))) ∧
    (natGet seekr from_pt ≠ none → (∀ t, to_pt = some t → from_pt < t) →
      ∃ r, gsoPre seekr from_pt to_pt = .ok r) := by
  have hmsg : lookupMsg ≠ rangeMsg := by decide
  by_cases hmem : natGet seekr from_pt = none
  · refine ⟨by simp [gsoPre, hmem], ?_, fun h => absurd hmem h⟩
    intro t ht
    simp [gsoPre, hmem, hmsg]
  · refine ⟨?_, ?_, ?_⟩
    · cases to_pt with
      | none =>
          simp only [gsoPre, if_neg hmem]
          constructor
          · intro h
            split at h <;> simp at h
          · intro h
            exact absurd h hmem
      | some t =>
          by_cases hle : t ≤ from_pt <;>
            simp [gsoPre, hmem, hle, Ne.symm hmsg]
    · intro t ht
      subst ht
      by_cases hle : t ≤ from_pt <;> simp [gsoPre, hmem, hle]
    · intro _ hgt
      cases to_pt with
      | none =>
          simp only [gsoPre, if_neg hmem]
          split
          · exact ⟨_, rfl⟩
          · exact ⟨_, rfl⟩
      | some t =>
          have : ¬(t ≤ from_pt) := not_le.mpr (hgt t rfl)
          exact ⟨some t, by simp [gsoPre, hmem, this]⟩

/-- Witness for `gsoPre_precondition_spec`: seek index containing only
key 10, an explicit `to_pt = 5 ≤ 10` — the range error fires. -/
theorem gsoPre_precondition_spec_witness :
    gsoPre [(10, 1)] 10 (some 5) = .error (.pdfError rangeMsg) :=
  ((gsoPre_precondition_spec [(10, 1)] 10 (some 5)).2.1 5 rfl).mpr
    ⟨by decide, by decide⟩

/-! ## C1: which trailer the chained load stores -/

/-- C1 amended.  Every successful chained load from an offset stores,
as the handle's trailer, the trailer of the table *at that offset* —
the newest table of the chain — with its `Prev` key removed: the
recursive call of line 190 stores the older trailers first, but the
caller's own assignment at line 194 runs after the recursion returns
and overwrites them, so the outermost (newest) write wins. -/
theorem trailer_stored_is_newest (doc : List (Nat × XTable)) (fuel off : Nat)
    (st st' : LoaderState) (tab : XTable)
    (hdoc : natGet doc off = some tab)
    (hrun : get_xref_table doc fuel off st = some (.ok st')) :
    st'.trailer = odDel tab.trailer prevKey := by
  cases fuel with
  | zero => simp [get_xref_table] at hrun
  | succ f =>
      unfold get_xref_table at hrun
      simp only [hdoc] at hrun
      cases hprev : odGet tab.trailer prevKey with
      | none =>
          simp only [hprev, Option.some.injEq, Except.ok.injEq] at hrun
          rw [← hrun, odDel_of_not_mem tab.trailer prevKey hprev]
      | some v =>
          cases v with
          | int p =>
              simp only [hprev] at hrun
              cases hrec : get_xref_table doc f p.toNat
                  (recordRows st tab.start tab.rows) with
              | none => simp [hrec] at hrun
              | some res =>
                  cases res with
                  | error e => simp [hrec] at hrun
                  | ok st2 =>
                      simp only [hrec, Option.some.injEq, Except.ok.injEq] at hrun
                      rw [← hrun]
          | str s => simp [hprev] at hrun
          | dict d => simp [hprev] at hrun

/-- Witness for `trailer_stored_is_newest` on the two-table document:
the stored trailer is the newest table's, `Prev` removed. -/
theorem trailer_stored_is_newest_witness :
    (⟨[], [], [(rootKey, PDFValue.int 1)]⟩ : LoaderState).trailer =
      odDel tabNewer.trailer prevKey :=
  trailer_stored_is_newest docTwo 3 10 emptySt ⟨[], [], [(rootKey, .int 1)]⟩ tabNewer
    rfl rfl

/-- C1 counterexample.  On the two-table chain the claim says the
oldest table's trailer (here `Root 2`) wins; the load actually stores
the newest table's trailer `Root 1` (with `Prev` deleted). -/
theorem trailer_not_oldest :
    get_xref_table docTwo 3 10 emptySt =
      some (.ok ⟨[], [], [(rootKey, .int 1)]⟩) ∧
    [(rootKey, PDFValue.int 1)] ≠ [(rootKey, PDFValue.int 2)] := by
  refine ⟨rfl, ?_⟩
  simp

/-! ## C3: the fallback `endstream` scan -/

theorem isTermAt_le_length (d : List Char) (r : Nat) (h : isTermAt (d.drop r) = true) :
    r ≤ d.length := by
  by_contra hgt
  push_neg at hgt
  rw [List.drop_eq_nil_of_le (le_of_lt hgt)] at h
  exact absurd h (by decide)

theorem findLastTermGo_eq_some (d : List Char) (r : Nat)
    (hr : isTermAt (d.drop r) = true)
    (hlast : ∀ j, isTermAt (d.drop j) = true → j ≤ r) :
    ∀ m, r ≤ m → findLastTermGo d m = some r := by
  intro m
  induction m with
  | zero =>
      intro hm
      have hr0 : r = 0 := Nat.le_zero.mp hm
      subst hr0
      rw [List.drop_zero] at hr
      simp [findLastTermGo, hr]
  | succ m ih =>
      intro hm
      by_cases hr1 : r = m + 1
      · subst hr1
        simp [findLastTermGo, hr]
      · have hrm : r ≤ m := by omega
        cases h2 : isTermAt (d.drop (m + 1)) with
        | true => exact absurd (hlast (m + 1) h2) (by omega)
        | false => simp [findLastTermGo, h2, ih hrm]

theorem findLastTerm_eq_some (d : List Char) (r : Nat)
    (hr : isTermAt (d.drop r) = true)
    (hlast : ∀ j, isTermAt (d.drop j) = true → j ≤ r) :
    findLastTerm d = some r :=
  findLastTermGo_eq_some d r hr hlast d.length (isTermAt_le_length d r hr)

/-- C3 amended.  With no `Length` key and the terminator
`endstream EOL endobj EOL` present (last occurrence at index `r` of
the buffer), the returned data is `data[:r]` — the whole buffer prefix
*including the object header and the end-of-line that precedes
`endstream`*, not just the bytes after the header match — and no
warning is emitted (the boundary warning fires only when the
terminator is absent). -/
theorem fallback_scan_takes_full_prefix (meta : List (List Char × PDFValue))
    (data : List Char) (e r : Nat)
    (hL : odGet meta lengthKey = none)
    (hr : isTermAt (data.drop r) = true)
    (hlast : ∀ j, j ≤ data.length → isTermAt (data.drop j) = true → j ≤ r) :
    resolvePayload meta data e = .ok (data.take r, []) := by
  have hlast2 : ∀ j, isTermAt (data.drop j) = true → j ≤ r := fun j hj =>
    hlast j (isTermAt_le_length data j hj) hj
  simp [resolvePayload, hL, findLastTerm_eq_some data r hr hlast2]

/-- Witness for `fallback_scan_takes_full_prefix`: the header match
ends at index 22, the terminator's last occurrence is at index 25. -/
theorem fallback_scan_takes_full_prefix_witness :
    resolvePayload [] c3buf 22 = .ok (c3buf.take 25, []) :=
  fallback_scan_takes_full_prefix [] c3buf 22 25 rfl (by decide) (by decide)

/-- C3 counterexample.  On the example buffer the claim demands the
payload `XY\n` (the bytes between the header match at 22 and the
terminator at 25) plus a boundary warning; the code returns the whole
prefix `5 0 obj<</A 1>>stream\nXY\n` and emits no warning. -/
theorem fallback_includes_header_no_warning :
    resolvePayload [] c3buf 22 = .ok (c3buf.take 25, []) ∧
    c3buf.take 25 = "5 0 obj<</A 1>>stream\nXY\n".toList ∧
    (c3buf.drop 22).take 3 = "XY\n".toList ∧
    "5 0 obj<</A 1>>stream\nXY\n".toList ≠ "XY\n".toList := by
  exact ⟨rfl, rfl, rfl, by decide⟩

/-! ## C5: `get_init_xref` -/

theorem sxrefAt_le_length (w : List Char) (j : Nat) (h : sxrefAt w j = true) :
    j ≤ w.length := by
  by_contra hgt
  push_neg at hgt
  unfold sxrefAt at h
  rw [List.drop_eq_nil_of_le (le_of_lt hgt)] at h
  exact absurd h (by decide)

theorem rfindSxrefGo_eq_some (w : List Char) (r : Nat)
    (hr : sxrefAt w r = true)
    (hlast : ∀ j, sxrefAt w j = true → j ≤ r) :
    ∀ m, r ≤ m → rfindSxrefGo w m = some r := by
  intro m
  induction m with
  | zero =>
      intro hm
      have hr0 : r = 0 := Nat.le_zero.mp hm
      subst hr0
      simp [rfindSxrefGo, hr]
  | succ m ih =>
      intro hm
      by_cases hr1 : r = m + 1
      · subst hr1
        simp [rfindSxrefGo, hr]
      · have hrm : r ≤ m := by omega
        cases h2 : sxrefAt w (m + 1) with
        | true => exact absurd (hlast (m + 1) h2) (by omega)
        | false => simp [rfindSxrefGo, h2, ih hrm]

theorem rfindSxrefGo_eq_none (w : List Char) (m : Nat)
    (h : ∀ j, sxrefAt w j = false) : rfindSxrefGo w m = none := by
  induction m with
  | zero => simp [rfindSxrefGo, h 0]
  | succ m ih => simp [rfindSxrefGo, h (m + 1), ih]

/-- C5 amended.  The relative seek of line 116 does not clamp: on a
file shorter than 1024 bytes it raises `IOError` (the claim's
`max(0, ...)` clamp and the small-file success are not in the code).
On files of at least 1024 bytes, the window is exactly the last 1024
bytes, the anchor is the last occurrence of `startxref` in it
(`PDFKludgeError` when there is none), and the offset is accepted or
rejected by the `WS (\d+) WS` match on the text after the token
(`PDFKludgeError` when it fails — which also requires a white-space
character before and after the digits, not just the presence of
digits). -/
theorem get_init_xref_behavior (content : List Char) :
    (content.length < 1024 → get_init_xref content = .error .ioError) ∧
    (1024 ≤ content.length →
      ((∀ j, sxrefAt (content.drop (content.length - 1024)) j = false) →
        get_init_xref content = .error (.pdfError "Cannot find startxref after 0x%x")) ∧
      (∀ r, sxrefAt (content.drop (content.length - 1024)) r = true →
        (∀ j, sxrefAt (content.drop (content.length - 1024)) j = true → j ≤ r) →
        get_init_xref content =
          match matchStartxrefNum ((content.drop (content.length - 1024)).drop (r + 9)) with
          | some n => .ok n
          | none => .error (.pdfError "Bad startxref at 0x%x"))) := by
  refine ⟨fun h => by simp [get_init_xref, h], fun h1024 => ⟨?_, ?_⟩⟩
  · intro habs
    have hnone : rfindSxref (content.drop (content.length - 1024)) = none :=
      rfindSxrefGo_eq_none _ _ habs
    have hnotlt : ¬(content.length < 1024) := not_lt.mpr h1024
    simp [get_init_xref, hnotlt, hnone]
  · intro r hr hlast
    have hsome : rfindSxref (content.drop (content.length - 1024)) = some r :=
      rfindSxrefGo_eq_some _ r hr hlast _ (sxrefAt_le_length _ r hr)
    have hnotlt : ¬(content.length < 1024) := not_lt.mpr h1024
    simp [get_init_xref, hnotlt, hsome]

/-- Witness for `get_init_xref_behavior`: a four-byte file hits the
unclamped relative seek. -/
theorem get_init_xref_behavior_witness :
    get_init_xref ("tiny".toList) = .error .ioError :=
  (get_init_xref_behavior ("tiny".toList)).1 (by decide)

/-- C5 counterexample.  A complete small PDF (shorter than 1024 bytes)
with a well-formed `startxref` footer: the claim says the seek clamps
to offset 0 and the call succeeds; the code's relative seek makes the
file layer raise `IOError` instead, and no `PDFKludgeError` is
involved. -/
theorem get_init_xref_small_file_io_error :
    get_init_xref ("%PDF-1.4\nxref\n0 0\ntrailer\n<<>>\nstartxref\n9\n%%EOF\n".toList) =
      .error .ioError := rfl

/-! ## C6: the merged object index across a chained load -/

theorem recordRow_xref_get (st : LoaderState) (objn : Nat) (r : XrefRow) (n : Nat) :
    natGet (recordRow st objn r).xref n =
      match natGet st.xref n with
      | some e => some e
      | none => if n = objn ∧ r.off ≠ 0 then some ⟨r.off, r.gen, r.in_use⟩ else none := by
  unfold recordRow
  by_cases hg : r.off ≠ 0 ∧ natGet st.xref objn = none
  · rw [if_pos hg]
    simp only []
    rw [natGet_append]
    cases hn : natGet st.xref n with
    | some e => rfl
    | none =>
        by_cases he : n = objn
        · subst he
          simp [hg.1]
        · simp [he]
  · rw [if_neg hg]
    cases hn : natGet st.xref n with
    | some e => rfl
    | none =>
        have hcond : ¬(n = objn ∧ r.off ≠ 0) := by
          rintro ⟨rfl, hoff⟩
          exact hg ⟨hoff, hn⟩
        simp [hcond]

theorem recordRows_xref_get (rs : List XrefRow) :
    ∀ (st : LoaderState) (objn n : Nat),
    natGet (recordRows st objn rs).xref n =
      match natGet st.xref n with
      | some e => some e
      | none => rowsHit objn rs n := by
  induction rs with
  | nil =>
      intro st objn n
      cases hn : natGet st.xref n <;> simp [recordRows, rowsHit, hn]
  | cons r rs ih =>
      intro st objn n
      rw [recordRows, ih, recordRow_xref_get]
      cases hn : natGet st.xref n with
      | some e => simp [hn]
      | none =>
          by_cases hcond : n = objn ∧ r.off ≠ 0
          · simp [hcond, rowsHit]
          · simp [hcond, rowsHit]

theorem loadTabs_xref_get (ts : List XTable) :
    ∀ (st : LoaderState) (n : Nat),
    natGet (loadTabs st ts).xref n =
      match natGet st.xref n with
      | some e => some e
      | none => firstHit ts n := by
  induction ts with
  | nil =>
      intro st n
      cases hn : natGet st.xref n <;> simp [loadTabs, firstHit, hn]
  | cons t ts ih =>
      intro st n
      rw [loadTabs, ih, recordRows_xref_get]
      cases hn : natGet st.xref n with
      | some e => simp [hn]
      | none =>
          cases ht : rowsHit t.start t.rows n <;> simp [firstHit, ht]

theorem recordRow_inv (st : LoaderState) (objn : Nat) (r : XrefRow)
    (h : seekrInv st) : seekrInv (recordRow st objn r) := by
  unfold recordRow
  by_cases hg : r.off ≠ 0 ∧ natGet st.xref objn = none
  · rw [if_pos hg]
    intro g n hgn
    simp only [] at hgn ⊢
    rw [natSet_get] at hgn
    rw [natGet_append]
    by_cases hgo : g = r.off
    · rw [if_pos hgo] at hgn
      injection hgn with hno
      subst hno
      refine ⟨⟨r.off, r.gen, r.in_use⟩, ?_, hgo.symm⟩
      rw [hg.2]
      simp
    · rw [if_neg hgo] at hgn
      obtain ⟨e, he, hseek⟩ := h g n hgn
      exact ⟨e, by rw [he], hseek⟩
  · rw [if_neg hg]
    exact h

theorem recordRows_inv (rs : List XrefRow) :
    ∀ (st : LoaderState) (objn : Nat), seekrInv st →
      seekrInv (recordRows st objn rs) := by
  induction rs with
  | nil => intro st objn h; exact h
  | cons r rs ih =>
      intro st objn h
      exact ih (recordRow st objn r) (objn + 1) (recordRow_inv st objn r h)

theorem loadTabs_inv (ts : List XTable) :
    ∀ st : LoaderState, seekrInv st → seekrInv (loadTabs st ts) := by
  induction ts with
  | nil => intro st h; exact h
  | cons t ts ih =>
      intro st h
      exact ih (recordRows st t.start t.rows) (recordRows_inv t.rows st t.start h)

theorem emptySt_inv : seekrInv emptySt := by
  intro g n h
  simp [natGet, emptySt] at h

theorem get_xref_table_to_loadTabs (doc : List (Nat × XTable)) :
    ∀ (fuel off : Nat) (st st' : LoaderState),
    get_xref_table doc fuel off st = some (.ok st') →
    ∃ ch, chainOf doc fuel off = some ch ∧
      st'.xref = (loadTabs st ch).xref ∧ st'.seekr = (loadTabs st ch).seekr := by
  intro fuel
  induction fuel with
  | zero =>
      intro off st st' h
      simp [get_xref_table] at h
  | succ f ih =>
      intro off st st' h
      unfold get_xref_table at h
      cases hdoc : natGet doc off with
      | none => simp [hdoc] at h
      | some tab =>
          simp only [hdoc] at h
          cases hprev : odGet tab.trailer prevKey with
          | none =>
              simp only [hprev, Option.some.injEq, Except.ok.injEq] at h
              refine ⟨[tab], by simp [chainOf, hdoc, hprev], ?_, ?_⟩
              · rw [← h]
                rfl
              · rw [← h]
                rfl
          | some v =>
              cases v with
              | int p =>
                  simp only [hprev] at h
                  cases hrec : get_xref_table doc f p.toNat
                      (recordRows st tab.start tab.rows) with
                  | none => simp [hrec] at h
                  | some res =>
                      cases res with
                      | error e => simp [hrec] at h
                      | ok st2 =>
                          simp only [hrec, Option.some.injEq, Except.ok.injEq] at h
                          obtain ⟨ch', hch', hx, hs⟩ :=
                            ih p.toNat (recordRows st tab.start tab.rows) st2 hrec
                          refine ⟨tab :: ch', ?_, ?_, ?_⟩
                          · simp [chainOf, hdoc, hprev, hch']
                          · rw [← h]
                            simpa [loadTabs] using hx
                          · rw [← h]
                            simpa [loadTabs] using hs
              | str s => simp [hprev] at h
              | dict d => simp [hprev] at h

/-- C6.  Across a full successful chained load (tables visited newest
first, each table's rows recorded before its `Prev` link is followed),
the object index maps each object number exactly to the entry of the
first table in visit order — the newest — that lists it with a nonzero
offset field (`firstHit`); an entry exists iff some chain table lists
the number with a nonzero offset.  Every binding of the seek index was
recorded under the same rule: it points back to an object whose
retained entry carries that seek offset. -/
theorem xref_records_first_seen (doc : List (Nat × XTable)) (fuel off : Nat)
    (st' : LoaderState) (ch : List XTable)
    (hrun : get_xref_table doc fuel off emptySt = some (.ok st'))
    (hch : chainOf doc fuel off = some ch) :
    (∀ n, natGet st'.xref n = firstHit ch n) ∧
    (∀ g n, natGet st'.seekr g = some n →
      ∃ e, firstHit ch n = some e ∧ e.seek = g) := by
  obtain ⟨ch', hch', hx, hs⟩ := get_xref_table_to_loadTabs doc fuel off emptySt st' hrun
  rw [hch'] at hch
  injection hch with hcheq
  subst hcheq
  constructor
  · intro n
    rw [hx, loadTabs_xref_get]
    simp [emptySt, natGet]
  · intro g n hg
    rw [hs] at hg
    obtain ⟨e, he, hseek⟩ := loadTabs_inv ch' emptySt emptySt_inv g n hg
    refine ⟨e, ?_, hseek⟩
    rw [loadTabs_xref_get] at he
    simpa [emptySt, natGet] using he

/-- Witness for `xref_records_first_seen`: after the chained load,
object 5 is bound to the newer table's offset 100, not the older 50. -/
theorem xref_records_first_seen_witness :
    natGet (LoaderState.mk [(5, ⟨100, 0, true⟩)] [(100, 5)] []).xref 5 =
      firstHit [tabRowsNewer, tabRowsOlder] 5 :=
  (xref_records_first_seen docRows 3 10 ⟨[(5, ⟨100, 0, true⟩)], [(100, 5)], []⟩
    [tabRowsNewer, tabRowsOlder] rfl rfl).1 5

/-! ## C2 (amended round trip): lemmas on the parse of a rendered
flat mapping -/

theorem valueChar_of_not_delim (c : Char) (h : isDelim c = false) :
    valueChar c = true := by
  simp only [isDelim, Bool.or_eq_false_iff] at h
  obtain ⟨⟨⟨⟨⟨⟨h1, h2⟩, h3⟩, h4⟩, h5⟩, h6⟩, h7⟩ := h
  simp [valueChar, h7]
  refine ⟨?_, ?_⟩
  · simpa using h6
  · simpa using h2

theorem valueChar_elim (c : Char) (h : valueChar c = true) :
    isWS c = false ∧ c ≠ '/' ∧ c ≠ '>' ∧ c ≠ '\n' := by
  simp only [valueChar, Bool.and_eq_true, bne_iff_ne, ne_eq, Bool.not_eq_true'] at h
  obtain ⟨⟨h1, h2⟩, h3⟩ := h
  refine ⟨h1, h2, h3, ?_⟩
  intro he
  subst he
  simp [isWS] at h1

theorem itemStop_value_char (c : Char) (rest : List Char) (hc : valueChar c = true) :
    itemStop (c :: rest) = false := by
  obtain ⟨hws, hsl, hgt, hnl⟩ := valueChar_elim c hc
  simp [itemStop, hsl, hgt, hnl]

theorem ws3Find_value_char (c : Char) (rest : List Char) (hc : valueChar c = true) :
    ws3Find (c :: rest) = none := by
  have hws : isWS c = false := (valueChar_elim c hc).1
  simp [ws3Find, List.takeWhile_cons, hws, tryWs3, itemStop_value_char c rest hc]

theorem itemStop_of_head (tail : List Char)
    (h : tail.head? = some '/' ∨ tail.take 2 = ['>', '>']) : itemStop tail = true := by
  rcases h with h | h <;> simp [itemStop, h]

theorem takeWhile_ws_nil_of_head (tail : List Char)
    (h : tail.head? = some '/' ∨ tail.take 2 = ['>', '>']) :
    tail.takeWhile isWS = [] := by
  rcases h with h | h
  · cases tail with
    | nil => simp at h
    | cons a t =>
        simp at h
        subst h
        simp [List.takeWhile_cons, isWS]
  · cases tail with
    | nil => simp at h
    | cons a t =>
        cases t with
        | nil => simp [List.take] at h
        | cons b t2 =>
            simp [List.take] at h
            obtain ⟨rfl, rfl⟩ := h
            simp [List.takeWhile_cons, isWS]

theorem ws3Find_space_stop (tail : List Char)
    (htail : tail.head? = some '/' ∨ tail.take 2 = ['>', '>']) :
    ws3Find (' ' :: tail) = some tail := by
  have h1 : (' ' :: tail).takeWhile isWS = ' ' :: tail.takeWhile isWS := by
    simp [List.takeWhile_cons, isWS]
  unfold ws3Find
  rw [h1, takeWhile_ws_nil_of_head tail htail]
  simp [tryWs3, itemStop_of_head tail htail]

theorem valueSearch_through (tail : List Char)
    (htail : tail.head? = some '/' ∨ tail.take 2 = ['>', '>']) :
    ∀ (mid v : List Char), (∀ c ∈ mid, valueChar c = true) →
    valueSearch v (mid ++ ' ' :: tail) = some (v ++ mid, tail) := by
  intro mid
  induction mid with
  | nil =>
      intro v _
      rw [List.nil_append, valueSearch, ws3Find_space_stop tail htail]
      simp
  | cons c mid ih =>
      intro v hmid
      have hc : valueChar c = true := hmid c (List.mem_cons_self c mid)
      have hnl : c ≠ '\n' := (valueChar_elim c hc).2.2.2
      rw [List.cons_append, valueSearch,
        ws3Find_value_char c (mid ++ ' ' :: tail) hc]
      simp only [hnl, if_neg]
      rw [ih (v ++ [c]) fun d hd => hmid d (List.mem_cons_of_mem c hd)]
      simp

theorem startValue_through (tail : List Char)
    (htail : tail.head? = some '/' ∨ tail.take 2 = ['>', '>'])
    (val : List Char) (hne : val ≠ []) (hval : ∀ c ∈ val, valueChar c = true) :
    startValue (val ++ ' ' :: tail) = some (val, tail) := by
  cases val with
  | nil => exact absurd rfl hne
  | cons c val' =>
      have hc : valueChar c = true := hval c (List.mem_cons_self c val')
      have hnl : c ≠ '\n' := (valueChar_elim c hc).2.2.2
      rw [List.cons_append, startValue]
      simp only [hnl, if_neg]
      rw [valueSearch_through tail htail val' [c]
        fun d hd => hval d (List.mem_cons_of_mem c hd)]
      simp

theorem takeWhile_all_stop (p : Char → Bool) (l : List Char) (x : Char) (r : List Char)
    (hl : ∀ c ∈ l, p c = true) (hx : p x = false) :
    (l ++ x :: r).takeWhile p = l ∧ (l ++ x :: r).dropWhile p = x :: r := by
  induction l with
  | nil => simp [List.takeWhile_cons, List.dropWhile_cons, hx]
  | cons c t ih =>
      have hc : p c = true := hl c (List.mem_cons_self c t)
      have iht := ih fun d hd => hl d (List.mem_cons_of_mem c hd)
      simp [List.takeWhile_cons, List.dropWhile_cons, hc, iht.1, iht.2]

theorem matchItem_rendered (k val rest2 : List Char)
    (hk : ∀ c ∈ k, isDelim c = false)
    (hne : val ≠ [])
    (hval : ∀ c ∈ val, valueChar c = true)
    (hrest : rest2.head? = some '/' ∨ rest2.take 2 = ['>', '>']) :
    matchItem ('/' :: (k ++ ' ' :: (val ++ ' ' :: rest2))) = some (k, val, rest2) := by
  have hname : ∀ c ∈ k, isNameChar c = true := by
    intro c hc
    simp [isNameChar, hk c hc]
  have hsp : isNameChar ' ' = false := by decide
  have hsplit := takeWhile_all_stop isNameChar k ' ' (val ++ ' ' :: rest2) hname hsp
  unfold matchItem
  have hdw : ('/' :: (k ++ ' ' :: (val ++ ' ' :: rest2))).dropWhile isWS =
      '/' :: (k ++ ' ' :: (val ++ ' ' :: rest2)) := by
    simp [List.dropWhile_cons, isWS]
  rw [hdw]
  simp only [hsplit.1, hsplit.2]
  have hws2 : (' ' :: (val ++ ' ' :: rest2)).takeWhile isWS = [' '] := by
    have hsp2 : isWS ' ' = true := by decide
    cases val with
    | nil => exact absurd rfl hne
    | cons c val' =>
        have hc : isWS c = false := (valueChar_elim c (hval c (List.mem_cons_self c val'))).1
        simp [List.takeWhile_cons, hsp2, hc]
  rw [hws2]
  simp only [List.length_cons, List.length_nil]
  rw [tryWs2]
  simp only [List.drop_succ_cons, List.drop_zero]
  rw [startValue_through rest2 hrest val hne hval]

/-- The digit characters rendered by `natCharsGo` parse back and walk
safely through the value group. -/
theorem digCh_facts (k : Nat) (hk : k < 10) :
    (digCh k).isDigit = true ∧ valueChar (digCh k) = true ∧
      (digCh k).toNat = 48 + k := by
  interval_cases k <;> exact ⟨by decide, by decide, by decide⟩

theorem digitsToNat_append_single (l : List Char) (c : Char) :
    digitsToNat (l ++ [c]) = 10 * digitsToNat l + (c.toNat - 48) := by
  simp [digitsToNat, List.foldl_append]

theorem natCharsGo_spec (f : Nat) :
    ∀ n, n < f →
      natCharsGo f n ≠ [] ∧
      (∀ c ∈ natCharsGo f n, c.isDigit = true ∧ valueChar c = true) ∧
      digitsToNat (natCharsGo f n) = n := by
  induction f with
  | zero => intro n h; omega
  | succ f ih =>
      intro n hn
      by_cases h10 : n < 10
      · refine ⟨by simp [natCharsGo, h10], ?_, ?_⟩
        · intro c hc
          simp [natCharsGo, h10] at hc
          subst hc
          exact ⟨(digCh_facts n h10).1, (digCh_facts n h10).2.1⟩
        · simp [natCharsGo, h10, digitsToNat, (digCh_facts n h10).2.2]
      · have hdiv : n / 10 < f := by
          have h1 : n / 10 < n := Nat.div_lt_self (by omega) (by omega)
          omega
        obtain ⟨hne, hmem, hval⟩ := ih (n / 10) hdiv
        have hmod : n % 10 < 10 := Nat.mod_lt n (by omega)
        refine ⟨by simp [natCharsGo, h10], ?_, ?_⟩
        · intro c hc
          simp only [natCharsGo, if_neg h10, List.mem_append, List.mem_singleton] at hc
          rcases hc with hc | hc
          · exact hmem c hc
          · subst hc
            exact ⟨(digCh_facts _ hmod).1, (digCh_facts _ hmod).2.1⟩
        · rw [natCharsGo]
          rw [if_neg h10, digitsToNat_append_single, hval, (digCh_facts _ hmod).2.2]
          omega

theorem pyIntStr_nonneg (n : Int) (hn : 0 ≤ n) :
    pyIntStr n = natCharsGo (n.toNat + 1) n.toNat := by
  unfold pyIntStr
  rw [if_neg (not_lt.mpr hn)]

/-- Rendering of a flat mapping by `dict_to_pdf`: the `"<< "` prefix,
the item body, the `">>"` suffix. -/
theorem dtpGo_flat (m : List (List Char × PDFValue)) :
    ∀ acc : List Char, (∀ p ∈ m, flatGoodVal p.2 = true) →
    dtpGo acc m = .ok (acc ++ (flatBody m ++ ['>', '>'])) := by
  induction m with
  | nil => intro acc _; simp [dtpGo, flatBody]
  | cons p rest ih =>
      obtain ⟨k, v⟩ := p
      intro acc h
      have hrest : ∀ q ∈ rest, flatGoodVal q.2 = true := fun q hq =>
        h q (List.mem_cons_of_mem _ hq)
      cases v with
      | dict d =>
          have := h (k, .dict d) (List.mem_cons_self _ _)
          simp [flatGoodVal] at this
      | int n =>
          rw [dtpGo, ih _ hrest]
          simp [flatBody, pyFmt]
      | str s =>
          rw [dtpGo, ih _ hrest]
          simp [flatBody, pyFmt]

theorem getDictGo_succ_slash (f : Nat) (acc : List (List Char × PDFValue))
    (cs : List Char) :
    getDictGo (f + 1) acc ('/' :: cs) =
      match matchItem ('/' :: cs) with
      | none => some (acc, '/' :: cs)
      | some (name, value, rest) =>
          if value = ['<', '<'] then
            match getDictGo f [] rest with
            | none => none
            | some (nested, rest') => getDictGo f (odSet acc name (.dict nested)) rest'
          else if value ≠ [] ∧ value.all Char.isDigit then
            getDictGo f (odSet acc name (.int (digitsToNat value))) rest
          else if value.head? = some '[' then
            match arrayLoop f value rest with
            | none => none
            | some (value', rest') => getDictGo f (odSet acc name (.str value')) rest'
          else getDictGo f (odSet acc name (.str value)) rest := rfl

theorem getDictGo_succ_item (f : Nat) (acc : List (List Char × PDFValue))
    (cs k val rest2 : List Char)
    (hmi : matchItem ('/' :: cs) = some (k, val, rest2)) :
    getDictGo (f + 1) acc ('/' :: cs) =
      if val = ['<', '<'] then
        match getDictGo f [] rest2 with
        | none => none
        | some (nested, rest') => getDictGo f (odSet acc k (.dict nested)) rest'
      else if val ≠ [] ∧ val.all Char.isDigit then
        getDictGo f (odSet acc k (.int (digitsToNat val))) rest2
      else if val.head? = some '[' then
        match arrayLoop f val rest2 with
        | none => none
        | some (val', rest') => getDictGo f (odSet acc k (.str val')) rest'
      else getDictGo f (odSet acc k (.str val)) rest2 := by
  rw [getDictGo_succ_slash, hmi]

/-- The parse of a rendered flat mapping: every item is consumed in
order and appended to the accumulated dictionary, and the final `>>`
closes the loop. -/
theorem getDictGo_flat (items : List (List Char × PDFValue)) :
    ∀ acc : List (List Char × PDFValue),
    (∀ p ∈ items, goodKey p.1 = true ∧ flatGoodVal p.2 = true) →
    (∀ p ∈ items, odGet acc p.1 = none) →
    (items.map Prod.fst).Nodup →
    getDictGo (items.length + 1) acc (flatBody items ++ ['>', '>']) =
      some (acc ++ items, []) := by
  induction items with
  | nil =>
      intro acc _ _ _
      simp only [flatBody, List.nil_append, List.length_nil, List.append_nil]
      rfl
  | cons p rest ih =>
      obtain ⟨k, v⟩ := p
      intro acc hgood hacc hnd
      obtain ⟨hk, hv⟩ := hgood (k, v) (List.mem_cons_self _ _)
      have hkchars : ∀ c ∈ k, isDelim c = false := by
        intro c hc
        have hk2 := hk
        simp only [goodKey, List.all_eq_true, Bool.not_eq_true'] at hk2
        exact hk2 c hc
      have hrest2 : (flatBody rest ++ ['>', '>']).head? = some '/' ∨
          (flatBody rest ++ ['>', '>']).take 2 = ['>', '>'] := by
        cases rest with
        | nil => right; rfl
        | cons q qs =>
            left
            obtain ⟨k2, v2⟩ := q
            simp [flatBody]
      have hshape : flatBody ((k, v) :: rest) ++ ['>', '>'] =
          '/' :: (k ++ ' ' :: (pyFmt v ++ ' ' :: (flatBody rest ++ ['>', '>']))) := by
        simp [flatBody]
      have hnodup_tail : (rest.map Prod.fst).Nodup := by
        have hnd2 : (k :: rest.map Prod.fst).Nodup := hnd
        exact hnd2.of_cons
      have hknotin : ∀ q ∈ rest, q.1 ≠ k := by
        intro q hq he
        have hmem : k ∈ rest.map Prod.fst := by
          rw [← he]
          exact List.mem_map_of_mem Prod.fst hq
        have hnd2 : (k :: rest.map Prod.fst).Nodup := hnd
        exact (List.nodup_cons.mp hnd2).1 hmem
      have hacc2 : ∀ q ∈ rest, odGet (acc ++ [(k, v)]) q.1 = none := by
        intro q hq
        rw [odGet_append, hacc q (List.mem_cons_of_mem _ hq)]
        simp [hknotin q hq]
      have hgood2 : ∀ q ∈ rest, goodKey q.1 = true ∧ flatGoodVal q.2 = true :=
        fun q hq => hgood q (List.mem_cons_of_mem _ hq)
      have hih := ih (acc ++ [(k, v)]) hgood2 hacc2 hnodup_tail
      have hset : odSet acc k v = acc ++ [(k, v)] :=
        odSet_of_not_mem acc k v (hacc (k, v) (List.mem_cons_self _ _))
      cases v with
      | dict d => simp [flatGoodVal] at hv
      | int n =>
          have hn : 0 ≤ n := by simpa [flatGoodVal] using hv
          have hrender : pyFmt (.int n) = natCharsGo (n.toNat + 1) n.toNat := by
            rw [pyFmt, pyIntStr_nonneg n hn]
          obtain ⟨hne, hdigok, hparse⟩ :=
            natCharsGo_spec (n.toNat + 1) n.toNat (by omega)
          have hvchars : ∀ c ∈ pyFmt (.int n), valueChar c = true := by
            intro c hc
            rw [hrender] at hc
            exact (hdigok c hc).2
          have hvne : pyFmt (.int n) ≠ [] := by rw [hrender]; exact hne
          have hmatch := matchItem_rendered k (pyFmt (.int n))
            (flatBody rest ++ ['>', '>']) hkchars hvne hvchars hrest2
          have halldig : (pyFmt (.int n)).all Char.isDigit = true := by
            rw [hrender]
            simp only [List.all_eq_true]
            intro c hc
            exact (hdigok c hc).1
          have hnotlt : pyFmt (.int n) ≠ ['<', '<'] := by
            intro he
            have hdig : ('<' : Char).isDigit = true := by
              have h2 := halldig
              rw [he] at h2
              simp only [List.all_eq_true] at h2
              exact h2 '<' (by simp)
            exact absurd hdig (by decide)
          have hvalparse : digitsToNat (pyFmt (.int n)) = n.toNat := by
            rw [hrender]; exact hparse
          rw [hshape, List.length_cons,
            getDictGo_succ_item (rest.length + 1) acc _ k (pyFmt (.int n))
              (flatBody rest ++ ['>', '>']) hmatch]
          rw [if_neg hnotlt, if_pos ⟨hvne, halldig⟩, hvalparse,
            Int.toNat_of_nonneg hn, hset, hih]
          simp
      | str s =>
          have hsne : s ≠ [] := by
            intro he
            rw [he] at hv
            simp [flatGoodVal] at hv
          have hsdelim : ∀ c ∈ s, isDelim c = false := by
            have h2 := hv
            simp only [flatGoodVal, Bool.and_eq_true] at h2
            obtain ⟨⟨_, hall⟩, _⟩ := h2
            simp only [List.all_eq_true, Bool.not_eq_true'] at hall
            exact hall
          have hsnotdig : s.all Char.isDigit = false := by
            have h2 := hv
            simp only [flatGoodVal, Bool.and_eq_true] at h2
            obtain ⟨_, hnd3⟩ := h2
            simpa using hnd3
          have hvchars : ∀ c ∈ pyFmt (.str s), valueChar c = true := by
            intro c hc
            rw [pyFmt] at hc
            exact valueChar_of_not_delim c (hsdelim c hc)
          have hvne : pyFmt (.str s) ≠ [] := hsne
          have hmatch := matchItem_rendered k (pyFmt (.str s))
            (flatBody rest ++ ['>', '>']) hkchars hvne hvchars hrest2
          have hnotlt : pyFmt (.str s) ≠ ['<', '<'] := by
            intro he
            have hmem : ('<' : Char) ∈ s := by
              have : pyFmt (.str s) = s := rfl
              rw [this] at he
              rw [he]
              simp
            exact absurd (hsdelim '<' hmem) (by decide)
          have hnotdig : ¬(pyFmt (.str s) ≠ [] ∧
              (pyFmt (.str s)).all Char.isDigit = true) := by
            rintro ⟨_, hall⟩
            rw [pyFmt] at hall
            rw [hsnotdig] at hall
            exact absurd hall (by simp)
          have hnotbr : ¬((pyFmt (.str s)).head? = some '[') := by
            intro he
            rw [pyFmt] at he
            cases s with
            | nil => simp at he
            | cons c s2 =>
                simp at he
                subst he
                exact absurd (hsdelim '[' (List.mem_cons_self _ _)) (by decide)
          rw [hshape, List.length_cons,
            getDictGo_succ_item (rest.length + 1) acc _ k (pyFmt (.str s))
              (flatBody rest ++ ['>', '>']) hmatch]
          rw [if_neg hnotlt, if_neg hnotdig, if_neg hnotbr]
          have hfmt : pyFmt (.str s) = s := rfl
          rw [hfmt, hset, hih]
          simp

/-- C2 amended.  For a flat ordered mapping whose keys contain no
delimiter characters and whose values are nonnegative integers or
nonempty delimiter-free opaque strings that are not all digits,
parsing the *inner text* of the serializer output — the output with
its leading `"<< "` stripped; `get_dict` is documented to receive the
text without the surrounding markers — reproduces the same keys in the
same insertion order with equal values.  (Fed the raw output,
`get_dict` returns the empty mapping: see the counterexample.) -/
theorem parse_of_render_round_trip (m : List (List Char × PDFValue)) (t : List Char)
    (hgood : ∀ p ∈ m, goodKey p.1 = true ∧ flatGoodVal p.2 = true)
    (hnd : (m.map Prod.fst).Nodup)
    (ht : dict_to_pdf m = .ok t) :
    get_dict (m.length + 1) (t.drop 3) = some m := by
  have hflat : ∀ p ∈ m, flatGoodVal p.2 = true := fun p hp => (hgood p hp).2
  have hform := dtpGo_flat m ['<', '<', ' '] hflat
  rw [dict_to_pdf] at ht
  rw [hform] at ht
  have ht2 : t = ['<', '<', ' '] ++ (flatBody m ++ ['>', '>']) := by
    injection ht with h2
    exact h2.symm
  rw [ht2]
  have hdrop : (['<', '<', ' '] ++ (flatBody m ++ ['>', '>'])).drop 3 =
      flatBody m ++ ['>', '>'] := rfl
  rw [hdrop]
  unfold get_dict
  rw [getDictGo_flat m [] hgood (fun p _ => rfl) hnd]
  simp

/-- Witness for `parse_of_render_round_trip` on a two-entry mapping
with one opaque-text and one integer value. -/
theorem parse_of_render_round_trip_witness :
    get_dict 3 (("<< /Type Catalog /Size 3 >>".toList).drop 3) = some c2map :=
  parse_of_render_round_trip c2map ("<< /Type Catalog /Size 3 >>".toList)
    (by decide) (by decide) rfl

end PDFKludge
